import Mathlib

/-!
# kiwix-desktop `src/webview.cpp`: a shallow embedding

The widget `WebView` of `webview.cpp` is embedded as pure functions over an
explicit widget state.  Toolkit values the code only passes around (zoom
factors, icons, archives) are kept abstract; toolkit operations whose result
the code branches on (`QString::split`, `QList::operator[]`,
`QWebEngineHistory::itemAt`, exceptions of the content library) are modelled
with their documented behaviour.
-/

namespace Kiwix

/-! ## Toolkit values -/

/-- QString, as the list of its characters. -/
abbrev QString := List Char

/-- Ways in which a call can end other than by returning: a violated
precondition of `QList::operator[]` (an assertion failure in debug builds,
undefined behaviour otherwise) and the C++ exceptions of the collaborators. -/
inductive Abort where
  | indexOutOfRange (index size : Nat)
  | out_of_range
  | EntryNotFound
  | other (what : QString)
  deriving DecidableEq, Repr

deriving instance DecidableEq for Except

/-- The call `QString::split(sep)` with its default `Qt::KeepEmptyParts`: the
pieces between consecutive occurrences of `sep`, empty pieces included, so the
result always has one more element than the string has separators. -/
def QString.split (sep : Char) : QString → List QString
  | [] => [[]]
  | c :: cs =>
    if c = sep then [] :: QString.split sep cs
    else
      match QString.split sep cs with
      | [] => [[c]]
      | piece :: pieces => (c :: piece) :: pieces

/-- The call `QList::operator[](i)`: the element at `i`, which must be a valid
index position of the list. -/
def QList.index {α : Type} (l : List α) (i : Nat) : Except Abort α :=
  match l[i]? with
  | some x => .ok x
  | none => .error (.indexOutOfRange i l.length)

/-- The parts of a `QUrl` that `webview.cpp` reads: the host and the query,
the latter as the key/value items `QUrlQuery` parses it into. -/
structure QUrl where
  scheme : QString
  host : QString
  path : QString
  queryItems : List (QString × QString)
  deriving DecidableEq, Repr

/-- The call `QUrlQuery(url).hasQueryItem(key)`. -/
def QUrlQuery.hasQueryItem (url : QUrl) (key : QString) : Bool :=
  url.queryItems.any (fun kv => decide (kv.1 = key))

/-- The settings store (`SettingsManager`), an external collaborator: the
default zoom factor and the zoom factor recorded for a content identifier. -/
structure SettingsManager (Zoom : Type) where
  getZoomFactor : Zoom
  getZoomFactorByZimId : QString → Zoom

/-! ## Identifiers parsed from the host -/

/-- Source: `getZimIdFromUrl`, `url.host().split('.')[0]`. -/
def getZimIdFromUrl (url : QUrl) : Except Abort QString :=
  QList.index (QString.split '.' url.host) 0

/-- Source: `getResultTypeFromUrl`, `url.host().split('.')[1]`. -/
def getResultTypeFromUrl (url : QUrl) : Except Abort QString :=
  QList.index (QString.split '.' url.host) 1

/-! ## Widget state -/

/-- A pixmap, by the bytes `QPixmap::loadFromData` was given. -/
structure QPixmap where
  loadedFrom : List Char
  deriving DecidableEq, Repr

/-- A `QIcon`: the null icon, or the icon made from a pixmap. -/
inductive QIcon where
  | null
  | fromPixmap (pixmap : QPixmap)
  deriving DecidableEq, Repr

/-- An entry stored in the browser history. -/
structure HistoryEntry where
  title : QString
  url : QUrl
  deriving DecidableEq, Repr

/-- A `QWebEngineHistoryItem`: a handle on position `index` of a history; it
has an entry when the position exists and is an invalid item otherwise. -/
structure QWebEngineHistoryItem where
  index : Int
  entry : Option HistoryEntry
  deriving DecidableEq, Repr

/-- The call `QWebEngineHistoryItem::title()`; empty for an invalid item. -/
def QWebEngineHistoryItem.title (item : QWebEngineHistoryItem) : QString :=
  match item.entry with
  | some e => e.title
  | none => []

/-- A `QWebEngineHistory`: the visited entries, oldest first, and the index of
the current one.  Indices are C `int`s, embedded as integers: the current index
of a history is below its item count, so `cur - 1`, `cur + 1`, `i--` and `i++`
in `webview.cpp` stay within `int`. -/
structure QWebEngineHistory where
  items : List HistoryEntry
  currentItemIndex : Int
  deriving DecidableEq, Repr

/-- The call `QWebEngineHistory::count()`. -/
def QWebEngineHistory.count (h : QWebEngineHistory) : Int :=
  h.items.length

/-- The call `QWebEngineHistory::itemAt(i)`. -/
def QWebEngineHistory.itemAt (h : QWebEngineHistory) (i : Int) : QWebEngineHistoryItem :=
  if 0 ≤ i ∧ i < h.count then ⟨i, h.items[i.toNat]?⟩ else ⟨i, none⟩

/-- The call `QWebEngineHistory::goToItem(item)`: the item becomes the current
one. -/
def QWebEngineHistory.goToItem (h : QWebEngineHistory) (item : QWebEngineHistoryItem) :
    QWebEngineHistory :=
  { h with currentItemIndex := item.index }

/-- The widget state: the inherited `QWebEngineView` state the code reads or
writes (`url()`, `history()`, the factor last given to `setZoomFactor`) and the
fields `m_currentZimId`, `m_icon`, `m_linkHovered` of `WebView`. -/
structure WebView (Zoom : Type) where
  url : QUrl
  history : QWebEngineHistory
  zoomFactor : Zoom
  m_currentZimId : QString
  m_icon : QIcon
  m_linkHovered : QString

/-! ## Zoom selection -/

/-- The call `QWebEngineView::setZoomFactor(factor)`. -/
def WebView.setZoomFactor {Zoom : Type} (self : WebView Zoom) (factor : Zoom) : WebView Zoom :=
  { self with zoomFactor := factor }

/-- Source: `WebView::applyCorrectZoomFactor`.  The right operand of `&&` is
evaluated only when the left one is true. -/
def WebView.applyCorrectZoomFactor {Zoom : Type} (self : WebView Zoom)
    (settingsManager : SettingsManager Zoom) : Except Abort (WebView Zoom) :=
  let url := self.url
  let isSearchResultsView : Except Abort Bool :=
    if QUrlQuery.hasQueryItem url "pattern".toList then
      match getResultTypeFromUrl url with
      | .ok resultType => .ok (decide (resultType = "search".toList))
      | .error a => .error a
    else .ok false
  match isSearchResultsView with
  | .error a => .error a
  | .ok true => .ok (self.setZoomFactor settingsManager.getZoomFactor)
  | .ok false =>
    match getZimIdFromUrl url with
    | .ok zimId => .ok (self.setZoomFactor (settingsManager.getZoomFactorByZimId zimId))
    | .error a => .error a

/-- Source: the `loadFinished` handler connected in the constructor of
`WebView`. -/
def WebView.onLoadFinished {Zoom : Type} (self : WebView Zoom)
    (settingsManager : SettingsManager Zoom) (ok : Bool) : Except Abort (WebView Zoom) :=
  if ok then self.applyCorrectZoomFactor settingsManager else .ok self

/-! ## History menus -/

/-- A `QVariant` as `webview.cpp` uses it: invalid (the data of a fresh
`QAction`) or holding an `int`. -/
inductive QVariant where
  | invalid
  | int (n : Int)
  deriving DecidableEq, Repr

/-- The call `QVariant::toInt()`; `0` when the variant holds no number. -/
def QVariant.toInt : QVariant → Int
  | .invalid => 0
  | .int n => n

/-- The slots of `WebView` a menu action can be connected to. -/
inductive Slot where
  | gotoTriggeredHistoryItemAction
  deriving DecidableEq, Repr

/-- A `QAction`: its text, its data and the slots connected to `triggered`. -/
structure QAction where
  text : QString
  data : QVariant
  triggered : List Slot
  deriving DecidableEq, Repr

/-- The two menu classes of `webview.cpp`. -/
inductive MenuClass where
  | WebViewBackMenu
  | WebViewForwardMenu
  deriving DecidableEq, Repr

/-- A `QMenu`: its class and its actions, in the order they were added. -/
structure QMenu where
  menuClass : MenuClass
  actions : List QAction
  deriving DecidableEq, Repr

/-- Source: `WebView::addHistoryItemAction`: `addAction(item.title())` appends a
new action, which then gets `n` as data and the slot connected. -/
def WebView.addHistoryItemAction (menu : QMenu) (item : QWebEngineHistoryItem) (n : Int) :
    QMenu :=
  let a : QAction := { text := item.title, data := .invalid, triggered := [] }
  let a := { a with data := QVariant.int n }
  let a := { a with triggered := a.triggered ++ [Slot.gotoTriggeredHistoryItemAction] }
  { menu with actions := menu.actions ++ [a] }

/-- Source: the loop `for (int i = cur - 1 ; i >= 0 ; i--)` of
`WebView::getHistoryBackMenu`, from the value `i`. -/
def WebView.getHistoryBackMenu.loop (h : QWebEngineHistory) (ret : QMenu) (i : Int) : QMenu :=
  if 0 ≤ i then
    WebView.getHistoryBackMenu.loop h (WebView.addHistoryItemAction ret (h.itemAt i) i) (i - 1)
  else ret
termination_by (i + 1).toNat
decreasing_by omega

/-- Source: `WebView::getHistoryBackMenu`; `none` is `Q_NULLPTR`. -/
def WebView.getHistoryBackMenu {Zoom : Type} (self : WebView Zoom) : Option QMenu :=
  let h := self.history
  let cur := h.currentItemIndex
  if cur ≤ 0 then none
  else
    let ret : QMenu := { menuClass := .WebViewBackMenu, actions := [] }
    some (WebView.getHistoryBackMenu.loop h ret (cur - 1))

/-- Source: the loop `for (int i = cur + 1 ; i < h->count() ; i++)` of
`WebView::getHistoryForwardMenu`, from the value `i`. -/
def WebView.getHistoryForwardMenu.loop (h : QWebEngineHistory) (ret : QMenu) (i : Int) : QMenu :=
  if i < h.count then
    WebView.getHistoryForwardMenu.loop h (WebView.addHistoryItemAction ret (h.itemAt i) i) (i + 1)
  else ret
termination_by (h.count - i).toNat
decreasing_by omega

/-- Source: `WebView::getHistoryForwardMenu`; `none` is `Q_NULLPTR`. -/
def WebView.getHistoryForwardMenu {Zoom : Type} (self : WebView Zoom) : Option QMenu :=
  let h := self.history
  let cur := h.currentItemIndex
  if cur + 1 ≥ h.count then none
  else
    let ret : QMenu := { menuClass := .WebViewForwardMenu, actions := [] }
    some (WebView.getHistoryForwardMenu.loop h ret (cur + 1))

/-- Source: `WebView::gotoTriggeredHistoryItemAction`; `sender` is the result
of `qobject_cast<QAction*>(QObject::sender())`, `none` for a null pointer. -/
def WebView.gotoTriggeredHistoryItemAction {Zoom : Type} (self : WebView Zoom)
    (sender : Option QAction) : WebView Zoom :=
  match sender with
  | none => self
  | some a =>
    let n := a.data.toInt
    let h := self.history
    if n < 0 ∨ n ≥ h.count then self
    else { self with history := h.goToItem (h.itemAt n) }

/-! ## Reaction to a URL change -/

/-- An item of a `zim::Archive`; reading it may throw. -/
structure Item where
  getData : Except Abort (List Char)
  getMimetype : Except Abort (List Char)

/-- A `zim::Archive`, an external collaborator: `getIllustrationItem(size)`
returns the illustration of that size or throws (`zim::EntryNotFound` when the
archive has none). -/
structure Archive where
  getIllustrationItem : Nat → Except Abort Item

/-- The content library, an external collaborator: `getArchive(id)` returns the
archive with that identifier or throws (`std::out_of_range` when the library
has none). -/
structure Library where
  getArchive : QString → Except Abort Archive

/-- The application singleton `KiwixApp::instance()`. -/
structure KiwixApp (Zoom : Type) where
  getSettingsManager : SettingsManager Zoom
  getLibrary : Library

/-- The signals `WebView` emits. -/
inductive Signal where
  | zimIdChanged (zimId : QString)
  | iconChanged (icon : QIcon)
  deriving DecidableEq, Repr

/-- What a call of a slot leaves behind: the widget state, the signals emitted
in order, and the exception or fault that left the slot, if any. -/
structure Outcome (Zoom : Type) where
  self : WebView Zoom
  emitted : List Signal
  raised : Option Abort

/-- Source: the body of the second `try` block of `WebView::onUrlChanged` up to
the construction of the pixmap: the bytes of the 48px illustration. -/
def WebView.onUrlChanged.favicon (archive : Archive) : Except Abort (List Char) :=
  match archive.getIllustrationItem 48 with
  | .error a => .error a
  | .ok item =>
    match item.getData with
    | .error a => .error a
    | .ok favicon =>
      match item.getMimetype with
      | .error a => .error a
      | .ok _mimetype => .ok favicon

/-- Source: `WebView::onUrlChanged`.  The first `catch` handles
`std::out_of_range` only and the second `zim::EntryNotFound` only; anything
else leaves the slot. -/
def WebView.onUrlChanged {Zoom : Type} (self : WebView Zoom) (app : KiwixApp Zoom)
    (url : QUrl) : Outcome Zoom :=
  match getZimIdFromUrl url with
  | .error a => ⟨self, [], some a⟩
  | .ok zimId =>
    if self.m_currentZimId = zimId then ⟨self, [], none⟩
    else
      let self := { self with m_currentZimId := zimId }
      let emitted := [Signal.zimIdChanged self.m_currentZimId]
      match app.getLibrary.getArchive self.m_currentZimId with
      | .error .out_of_range => ⟨self, emitted, none⟩
      | .error a => ⟨self, emitted, some a⟩
      | .ok archive =>
        let zoomFactor := app.getSettingsManager.getZoomFactorByZimId zimId
        let self := self.setZoomFactor zoomFactor
        match WebView.onUrlChanged.favicon archive with
        | .ok favicon =>
          let pixmap : QPixmap := { loadedFrom := favicon }
          let self := { self with m_icon := QIcon.fromPixmap pixmap }
          ⟨self, emitted ++ [Signal.iconChanged self.m_icon], none⟩
        | .error .EntryNotFound => ⟨self, emitted, none⟩
        | .error a => ⟨self, emitted, some a⟩

/-! ## Event filter -/

/-- The values of `QEvent::Type` the code distinguishes. -/
inductive EventType where
  | Wheel
  | MouseButtonRelease
  | ChildAdded
  | ChildRemoved
  | ToolTip
  | Other (code : Nat)
  deriving DecidableEq, Repr

/-- The values of `Qt::MouseButton`. -/
inductive MouseButton where
  | NoButton
  | LeftButton
  | RightButton
  | MiddleButton
  | BackButton
  | ForwardButton
  | ExtraButton (code : Nat)
  deriving DecidableEq, Repr

/-- The set `Qt::KeyboardModifiers`, as its flag word. -/
abbrev KeyboardModifiers := Nat

/-- The flag `Qt::ControlModifier`. -/
def ControlModifier : KeyboardModifiers := 0x04000000

/-- An event as `eventFilter` reads it: its type, and the `modifiers()` and
`button()` of the input event it is cast to. -/
structure QEvent where
  type : EventType
  modifiers : KeyboardModifiers
  button : MouseButton
  deriving DecidableEq, Repr

/-- The call `QString::startsWith(s)`, case sensitive. -/
def QString.startsWith : QString → QString → Bool
  | _, [] => true
  | [], _ :: _ => false
  | c :: cs, p :: ps => decide (c = p) && QString.startsWith cs ps

/-- What `eventFilter` asks of its surroundings. -/
inductive Effect where
  | openUrl (link : QString)
  | back
  | forward
  deriving DecidableEq, Repr

/-- Source: `WebView::eventFilter`: the returned flag and, in order, the calls
`QDesktopServices::openUrl`, `back()` and `forward()` it made. -/
def WebView.eventFilter {Zoom : Type} (self : WebView Zoom) (e : QEvent) : Bool × List Effect :=
  if e.type = EventType.Wheel ∧ e.modifiers = ControlModifier then (true, [])
  else if e.type = EventType.MouseButtonRelease then
    if ¬ (QString.startsWith self.m_linkHovered "zim://".toList = true)
        ∧ (e.modifiers = ControlModifier ∨ e.button = MouseButton.MiddleButton) then
      (true, [Effect.openUrl self.m_linkHovered])
    else if e.button = MouseButton.BackButton then (true, [Effect.back])
    else if e.button = MouseButton.ForwardButton then (true, [Effect.forward])
    else (false, [])
  else (false, [])

/-! ## Closed forms used in the statements -/

/-- The action `addHistoryItemAction` adds for position `n` of the history `h`:
the title of the item as text, `n` as data, the slot connected. -/
def WebView.historyItemAction (h : QWebEngineHistory) (n : Int) : QAction :=
  { text := (h.itemAt n).title, data := QVariant.int n,
    triggered := [Slot.gotoTriggeredHistoryItemAction] }

/-- The range of the current index of a history: `-1` when there is no current
item, otherwise the index of an item; stated with the weaker upper bound
`count`, which is all the proofs below use. -/
def QWebEngineHistory.Valid (h : QWebEngineHistory) : Prop :=
  -1 ≤ h.currentItemIndex ∧ h.currentItemIndex ≤ h.count

instance (h : QWebEngineHistory) : Decidable h.Valid :=
  inferInstanceAs (Decidable (-1 ≤ h.currentItemIndex ∧ h.currentItemIndex ≤ h.count))

/-! ## Example inputs -/

/-- The URL `zim://abc.search/?pattern=x`. -/
def exSearchUrl : QUrl :=
  { scheme := "zim".toList, host := "abc.search".toList, path := "/".toList,
    queryItems := [("pattern".toList, "x".toList)] }

/-- The URL `http://localhost/?pattern=x`, whose host has a single label. -/
def exLocalUrl : QUrl :=
  { scheme := "http".toList, host := "localhost".toList, path := "/".toList,
    queryItems := [("pattern".toList, "x".toList)] }

/-- A settings store: default zoom 100, zoom 150 for every identifier. -/
def exSettings : SettingsManager Nat :=
  { getZoomFactor := 100, getZoomFactorByZimId := fun _ => 150 }

/-- A widget showing `http://localhost/?pattern=x` at zoom 120. -/
def exLocalView : WebView Nat :=
  { url := exLocalUrl, history := { items := [], currentItemIndex := -1 }, zoomFactor := 120,
    m_currentZimId := "abc".toList, m_icon := QIcon.null, m_linkHovered := [] }

/-- The URL `about:blank?pattern=x`, whose host is empty. -/
def exBlankUrl : QUrl :=
  { scheme := "about".toList, host := [], path := "blank".toList,
    queryItems := [("pattern".toList, "x".toList)] }

/-- A widget showing `about:blank?pattern=x`. -/
def exBlankView : WebView Nat :=
  { exLocalView with url := exBlankUrl }

/-- A history entry with the given title. -/
def exEntry (title : String) : HistoryEntry :=
  { title := title.toList,
    url := { scheme := "zim".toList, host := "abc.zim".toList, path := title.toList,
             queryItems := [] } }

/-- A widget whose history holds the pages A, B, C, D, the current one being
C (index 2). -/
def exHistoryView : WebView Nat :=
  { url := exSearchUrl,
    history := { items := [exEntry "A", exEntry "B", exEntry "C", exEntry "D"],
                 currentItemIndex := 2 },
    zoomFactor := 100, m_currentZimId := "abc".toList, m_icon := QIcon.null,
    m_linkHovered := [] }

/-- An archive without illustrations. -/
def exArchiveNoIcon : Archive :=
  { getIllustrationItem := fun _ => .error .EntryNotFound }

/-- An archive whose 48px illustration has the bytes `PNG`. -/
def exArchiveIcon : Archive :=
  { getIllustrationItem := fun size =>
      if size = 48 then .ok { getData := .ok "PNG".toList, getMimetype := .ok "image/png".toList }
      else .error .EntryNotFound }

/-- A library holding the archive `abc` (no illustration) and the archive
`pic` (with one). -/
def exLibrary : Library :=
  { getArchive := fun zimId =>
      if zimId = "abc".toList then .ok exArchiveNoIcon
      else if zimId = "pic".toList then .ok exArchiveIcon
      else .error .out_of_range }

/-- The application with the example settings and library. -/
def exApp : KiwixApp Nat :=
  { getSettingsManager := exSettings, getLibrary := exLibrary }

/-- The URL `zim://zzz.zim/`, of an archive the example library lacks. -/
def exUnknownUrl : QUrl :=
  { scheme := "zim".toList, host := "zzz.zim".toList, path := "/".toList, queryItems := [] }

/-- A widget whose current content identifier is `old`, at zoom 120, with the
icon of a pixmap loaded from `ICO`. -/
def exOldView : WebView Nat :=
  { url := exUnknownUrl, history := { items := [], currentItemIndex := -1 }, zoomFactor := 120,
    m_currentZimId := "old".toList, m_icon := QIcon.fromPixmap { loadedFrom := "ICO".toList },
    m_linkHovered := [] }

/-! ## The host labels -/

/-- The pieces of a split: the first piece has no separator and is either the
whole string or what precedes the first separator, the remaining pieces being
the split of what follows it. -/
theorem QString.split_decompose (sep : Char) (s : QString) :
    ∃ label tail, QString.split sep s = label :: tail ∧ sep ∉ label ∧
      ((s = label ∧ tail = []) ∨
        ∃ rest, s = label ++ sep :: rest ∧ tail = QString.split sep rest) := by
  induction s with
  | nil => exact ⟨[], [], by simp [QString.split]⟩
  | cons c cs ih =>
    obtain ⟨label, tail, hsplit, hlabel, hcases⟩ := ih
    by_cases hc : c = sep
    · subst hc
      exact ⟨[], QString.split c cs, by simp [QString.split], by simp, Or.inr ⟨cs, by simp, rfl⟩⟩
    · refine ⟨c :: label, tail, by simp [QString.split, hc, hsplit], ?_, ?_⟩
      · simp only [List.mem_cons, not_or]
        exact ⟨fun h => hc h.symm, hlabel⟩
      · rcases hcases with ⟨h1, h2⟩ | ⟨rest, h1, h2⟩
        · exact Or.inl ⟨by rw [h1], h2⟩
        · exact Or.inr ⟨rest, by rw [h1]; rfl, h2⟩

/-- Claim C1: for every URL, `getZimIdFromUrl` returns the first dot-separated
label of the host: a string without `.` that is the whole host, or that is
followed in the host by the host's first `.`. -/
theorem getZimIdFromUrl_first_label (url : QUrl) :
    ∃ label, getZimIdFromUrl url = .ok label ∧ '.' ∉ label ∧
      (url.host = label ∨ ∃ rest, url.host = label ++ '.' :: rest) := by
  obtain ⟨label, tail, hsplit, hlabel, hcases⟩ := QString.split_decompose '.' url.host
  refine ⟨label, by simp [getZimIdFromUrl, QList.index, hsplit], hlabel, ?_⟩
  rcases hcases with ⟨h1, _⟩ | ⟨rest, h1, _⟩
  · exact Or.inl h1
  · exact Or.inr ⟨rest, h1⟩

/-- Claim C2: for every URL whose host contains a `.`, `getResultTypeFromUrl`
returns the second dot-separated label of the host: the string without `.`
that follows the host's first `.` and runs to the second `.`, or to the end of
the host when there is no second `.`. -/
theorem getResultTypeFromUrl_second_label (url : QUrl) (h : '.' ∈ url.host) :
    ∃ first second, getResultTypeFromUrl url = .ok second ∧ '.' ∉ first ∧ '.' ∉ second ∧
      (url.host = first ++ '.' :: second ∨
        ∃ rest, url.host = first ++ '.' :: (second ++ '.' :: rest)) := by
  obtain ⟨first, tail, hsplit, hfirst, hcases⟩ := QString.split_decompose '.' url.host
  rcases hcases with ⟨h1, _⟩ | ⟨rest, h1, h2⟩
  · exact absurd (h1 ▸ h) hfirst
  · obtain ⟨second, tail2, hsplit2, hsecond, hcases2⟩ := QString.split_decompose '.' rest
    refine ⟨first, second, ?_, hfirst, hsecond, ?_⟩
    · simp [getResultTypeFromUrl, QList.index, hsplit, h2, hsplit2]
    · rcases hcases2 with ⟨h3, _⟩ | ⟨rest2, h3, _⟩
      · exact Or.inl (by rw [h1, h3])
      · exact Or.inr ⟨rest2, by rw [h1, h3]⟩

/-- The host `abc.search` has the second label `search`. -/
theorem getResultTypeFromUrl_second_label_witness :
    '.' ∈ exSearchUrl.host ∧
      ∃ first second, getResultTypeFromUrl exSearchUrl = .ok second ∧ '.' ∉ first ∧
        '.' ∉ second ∧
        (exSearchUrl.host = first ++ '.' :: second ∨
          ∃ rest, exSearchUrl.host = first ++ '.' :: (second ++ '.' :: rest)) :=
  ⟨by decide, getResultTypeFromUrl_second_label exSearchUrl (by decide)⟩

/-- A host without `.` splits into the single piece that is the host. -/
theorem QString.split_of_not_mem (sep : Char) (s : QString) (h : sep ∉ s) :
    QString.split sep s = [s] := by
  obtain ⟨label, tail, hsplit, _, hcases⟩ := QString.split_decompose sep s
  rcases hcases with ⟨h1, h2⟩ | ⟨rest, h1, _⟩
  · rw [hsplit, h2, h1]
  · exact absurd (by rw [h1]; simp) h

/-- A host with a `.` splits into at least two pieces. -/
theorem QString.split_of_mem (sep : Char) (s : QString) (h : sep ∈ s) :
    ∃ first second tail, QString.split sep s = first :: second :: tail := by
  obtain ⟨first, tail, hsplit, hfirst, hcases⟩ := QString.split_decompose sep s
  rcases hcases with ⟨h1, _⟩ | ⟨rest, _, h2⟩
  · exact absurd (h1 ▸ h) hfirst
  · obtain ⟨second, tail2, hsplit2, _, _⟩ := QString.split_decompose sep rest
    exact ⟨first, second, tail2, by rw [hsplit, h2, hsplit2]⟩

/-- The read at index 0 is always within the split list. -/
theorem getZimIdFromUrl_ok (url : QUrl) : ∃ zimId, getZimIdFromUrl url = .ok zimId := by
  obtain ⟨label, tail, hsplit, _, _⟩ := QString.split_decompose '.' url.host
  exact ⟨label, by simp [getZimIdFromUrl, QList.index, hsplit]⟩

/-- The read at index 1 is within the split list when the host has a `.`. -/
theorem getResultTypeFromUrl_ok_of_mem (url : QUrl) (h : '.' ∈ url.host) :
    ∃ resultType, getResultTypeFromUrl url = .ok resultType := by
  obtain ⟨first, second, tail, hsplit⟩ := QString.split_of_mem '.' url.host h
  exact ⟨second, by simp [getResultTypeFromUrl, QList.index, hsplit]⟩

/-- The read at index 1 is out of range when the host has no `.`: the split
list then has one element. -/
theorem getResultTypeFromUrl_error_of_not_mem (url : QUrl) (h : '.' ∉ url.host) :
    getResultTypeFromUrl url = .error (.indexOutOfRange 1 1) := by
  simp [getResultTypeFromUrl, QList.index, QString.split_of_not_mem '.' url.host h]

/-! ## Zoom selection -/

/-- Whenever the query has no `pattern` item or the host has a `.`,
`applyCorrectZoomFactor` sets the default zoom factor if the query has a
`pattern` item and the second host label is `search`, and the zoom factor of
the first host label otherwise. -/
theorem WebView.applyCorrectZoomFactor_of_second_label {Zoom : Type} (self : WebView Zoom)
    (settingsManager : SettingsManager Zoom)
    (h : QUrlQuery.hasQueryItem self.url "pattern".toList = false ∨ '.' ∈ self.url.host) :
    ∃ zimId, getZimIdFromUrl self.url = .ok zimId ∧
      self.applyCorrectZoomFactor settingsManager =
        .ok (self.setZoomFactor
          (if QUrlQuery.hasQueryItem self.url "pattern".toList = true ∧
              getResultTypeFromUrl self.url = .ok "search".toList
            then settingsManager.getZoomFactor
            else settingsManager.getZoomFactorByZimId zimId)) := by
  obtain ⟨zimId, hz⟩ := getZimIdFromUrl_ok self.url
  refine ⟨zimId, hz, ?_⟩
  cases hp : QUrlQuery.hasQueryItem self.url "pattern".toList with
  | false =>
    unfold WebView.applyCorrectZoomFactor
    simp only [hp, hz]
    simp
  | true =>
    have hmem : '.' ∈ self.url.host := by
      rcases h with h | h
      · rw [hp] at h; cases h
      · exact h
    obtain ⟨resultType, hr⟩ := getResultTypeFromUrl_ok_of_mem self.url hmem
    unfold WebView.applyCorrectZoomFactor
    by_cases hs : resultType = "search".toList
    · simp only [hp, hr, hz, decide_eq_true hs, hs, and_self, if_true]
      simp
    · simp only [hp, hr, hz, decide_eq_false hs, Except.ok.injEq, hs, and_false, if_false]
      simp

/-- The function `applyCorrectZoomFactor` reads the split host out of range
exactly when the query has a `pattern` item and the host has no `.`; the read
is the one at index 1 of a list of one element. -/
theorem WebView.applyCorrectZoomFactor_error_iff {Zoom : Type} (self : WebView Zoom)
    (settingsManager : SettingsManager Zoom) (a : Abort) :
    self.applyCorrectZoomFactor settingsManager = .error a ↔
      (QUrlQuery.hasQueryItem self.url "pattern".toList = true ∧ '.' ∉ self.url.host ∧
        a = .indexOutOfRange 1 1) := by
  by_cases h : QUrlQuery.hasQueryItem self.url "pattern".toList = true ∧ '.' ∉ self.url.host
  · have hr := getResultTypeFromUrl_error_of_not_mem self.url h.2
    unfold WebView.applyCorrectZoomFactor
    simp only [h.1, hr]
    simp [h.2, eq_comm]
  · have h2 : QUrlQuery.hasQueryItem self.url "pattern".toList = false ∨ '.' ∈ self.url.host := by
      by_cases hp : QUrlQuery.hasQueryItem self.url "pattern".toList = true
      · exact Or.inr (by_contra fun hm => h ⟨hp, hm⟩)
      · exact Or.inl (by simpa using hp)
    obtain ⟨zimId, _, hok⟩ := WebView.applyCorrectZoomFactor_of_second_label self settingsManager h2
    rw [hok]
    constructor
    · intro he; cases he
    · rintro ⟨hp, hm, _⟩; exact absurd ⟨hp, hm⟩ h

/-- Claim C3, at the current URL `http://localhost/?pattern=x`: the query has
a `pattern` item, the host has the single label `localhost` and no second
label, so the zoom factor to set is that of `localhost`; the code sets none
and leaves the function on an out-of-range read, also when reached through
the `loadFinished` handler. -/
theorem WebView.applyCorrectZoomFactor_single_label_pattern :
    QUrlQuery.hasQueryItem exLocalView.url "pattern".toList = true ∧
      getZimIdFromUrl exLocalView.url = .ok "localhost".toList ∧
      exLocalView.applyCorrectZoomFactor exSettings ≠
        .ok (exLocalView.setZoomFactor (exSettings.getZoomFactorByZimId "localhost".toList)) ∧
      exLocalView.applyCorrectZoomFactor exSettings = .error (.indexOutOfRange 1 1) ∧
      exLocalView.onLoadFinished exSettings true = .error (.indexOutOfRange 1 1) :=
  ⟨rfl, rfl,
    (fun h => by
      have h2 : exLocalView.applyCorrectZoomFactor exSettings = .error (.indexOutOfRange 1 1) :=
        rfl
      rw [h2] at h
      cases h),
    rfl, rfl⟩

/-- Claim C10, at hosts without a second label: for the host `localhost` and
for the empty host the split list has one element, and with a `pattern` query
item `applyCorrectZoomFactor` reads it at index 1. -/
theorem WebView.applyCorrectZoomFactor_reads_out_of_range :
    QString.split '.' exLocalView.url.host = ["localhost".toList] ∧
      getResultTypeFromUrl exLocalView.url = .error (.indexOutOfRange 1 1) ∧
      exLocalView.applyCorrectZoomFactor exSettings = .error (.indexOutOfRange 1 1) ∧
      QString.split '.' exBlankView.url.host = [[]] ∧
      getResultTypeFromUrl exBlankView.url = .error (.indexOutOfRange 1 1) ∧
      exBlankView.applyCorrectZoomFactor exSettings = .error (.indexOutOfRange 1 1) :=
  ⟨rfl, rfl, rfl, rfl, rfl, rfl⟩

/-! ## History menus -/

/-- The title of the item at an index within the history. -/
theorem QWebEngineHistory.itemAt_title (h : QWebEngineHistory) (i : Int) (h0 : 0 ≤ i)
    (h1 : i < h.count) :
    ∃ e, h.items[i.toNat]? = some e ∧ (h.itemAt i).title = e.title := by
  have hlt : i.toNat < h.items.length := by
    unfold QWebEngineHistory.count at h1
    omega
  refine ⟨h.items[i.toNat], List.getElem?_eq_getElem hlt, ?_⟩
  simp [QWebEngineHistory.itemAt, QWebEngineHistoryItem.title, h0, h1,
    List.getElem?_eq_getElem hlt]

/-- One call of `addHistoryItemAction` appends `historyItemAction`. -/
theorem WebView.addHistoryItemAction_eq (menu : QMenu) (h : QWebEngineHistory) (n : Int) :
    WebView.addHistoryItemAction menu (h.itemAt n) n =
      { menu with actions := menu.actions ++ [WebView.historyItemAction h n] } := by
  simp [WebView.addHistoryItemAction, WebView.historyItemAction]

/-- The back loop started at `i` runs `i + 1` times and appends the actions
for the positions `i`, `i - 1`, ..., `0`. -/
theorem WebView.getHistoryBackMenu_loop_eq (h : QWebEngineHistory) (n : Nat) :
    ∀ (ret : QMenu) (i : Int), i + 1 = n →
      WebView.getHistoryBackMenu.loop h ret i =
        { ret with actions := ret.actions ++
            (List.range n).map (fun (k : Nat) => WebView.historyItemAction h (i - (k : Int))) } := by
  induction n with
  | zero =>
    intro ret i hi
    rw [WebView.getHistoryBackMenu.loop, if_neg (by omega)]
    simp
  | succ n ih =>
    intro ret i hi
    rw [WebView.getHistoryBackMenu.loop, if_pos (by omega), ih _ (i - 1) (by omega),
      WebView.addHistoryItemAction_eq, List.range_succ_eq_map]
    simp only [List.map_cons, List.map_map, List.append_assoc, List.singleton_append,
      Nat.cast_zero, sub_zero]
    congr 3
    apply List.map_congr_left
    intro k _
    simp only [Function.comp_apply, Nat.cast_succ]
    congr 1
    omega

/-- The forward loop started at `i` runs `count - i` times and appends the
actions for the positions `i`, `i + 1`, ..., `count - 1`. -/
theorem WebView.getHistoryForwardMenu_loop_eq (h : QWebEngineHistory) (n : Nat) :
    ∀ (ret : QMenu) (i : Int), h.count - i = n →
      WebView.getHistoryForwardMenu.loop h ret i =
        { ret with actions := ret.actions ++
            (List.range n).map (fun (k : Nat) => WebView.historyItemAction h (i + (k : Int))) } := by
  induction n with
  | zero =>
    intro ret i hi
    rw [WebView.getHistoryForwardMenu.loop, if_neg (by omega)]
    simp
  | succ n ih =>
    intro ret i hi
    rw [WebView.getHistoryForwardMenu.loop, if_pos (by omega), ih _ (i + 1) (by omega),
      WebView.addHistoryItemAction_eq, List.range_succ_eq_map]
    simp only [List.map_cons, List.map_map, List.append_assoc, List.singleton_append,
      Nat.cast_zero, add_zero]
    congr 3
    apply List.map_congr_left
    intro k _
    simp only [Function.comp_apply, Nat.cast_succ]
    congr 1
    omega

/-- The back menu in closed form. -/
theorem WebView.getHistoryBackMenu_eq {Zoom : Type} (self : WebView Zoom) :
    self.getHistoryBackMenu =
      if self.history.currentItemIndex ≤ 0 then none
      else some
        { menuClass := MenuClass.WebViewBackMenu,
          actions := (List.range self.history.currentItemIndex.toNat).map
            (fun (k : Nat) => WebView.historyItemAction self.history
              (self.history.currentItemIndex - 1 - (k : Int))) } := by
  unfold WebView.getHistoryBackMenu
  by_cases hc : self.history.currentItemIndex ≤ 0
  · simp [hc]
  · simp only [hc, if_false]
    rw [WebView.getHistoryBackMenu_loop_eq self.history self.history.currentItemIndex.toNat
      _ _ (by omega)]
    simp

/-- The forward menu in closed form. -/
theorem WebView.getHistoryForwardMenu_eq {Zoom : Type} (self : WebView Zoom) :
    self.getHistoryForwardMenu =
      if self.history.currentItemIndex + 1 ≥ self.history.count then none
      else some
        { menuClass := MenuClass.WebViewForwardMenu,
          actions :=
            (List.range (self.history.count - self.history.currentItemIndex - 1).toNat).map
              (fun (k : Nat) => WebView.historyItemAction self.history
                (self.history.currentItemIndex + 1 + (k : Int))) } := by
  unfold WebView.getHistoryForwardMenu
  by_cases hc : self.history.currentItemIndex + 1 ≥ self.history.count
  · simp [hc]
  · simp only [hc, if_false]
    rw [WebView.getHistoryForwardMenu_loop_eq self.history
      (self.history.count - self.history.currentItemIndex - 1).toNat _ _ (by omega)]
    simp

/-- Claim C4: `getHistoryBackMenu` yields no menu when the current index is at
most `0`; otherwise it yields a back menu with exactly `cur` entries, the
entry number `k` having the title of the history item at index `cur - 1 - k`
and carrying that index as data. -/
theorem WebView.getHistoryBackMenu_entries {Zoom : Type} (self : WebView Zoom) :
    (self.history.currentItemIndex ≤ 0 → self.getHistoryBackMenu = none) ∧
    (0 < self.history.currentItemIndex →
      ∃ menu, self.getHistoryBackMenu = some menu ∧
        menu.menuClass = MenuClass.WebViewBackMenu ∧
        (menu.actions.length : Int) = self.history.currentItemIndex ∧
        ∀ k : Nat, (k : Int) < self.history.currentItemIndex →
          ∃ a, menu.actions[k]? = some a ∧
            a.text = (self.history.itemAt (self.history.currentItemIndex - 1 - k)).title ∧
            a.data = QVariant.int (self.history.currentItemIndex - 1 - k) ∧
            a.triggered = [Slot.gotoTriggeredHistoryItemAction] ∧
            ∀ e, self.history.items[(self.history.currentItemIndex - 1 - k).toNat]? = some e →
              a.text = e.title) := by
  rw [WebView.getHistoryBackMenu_eq]
  refine ⟨fun hc => by simp [hc], fun hc => ?_⟩
  refine ⟨_, by rw [if_neg (by omega)], rfl, by simp; omega, ?_⟩
  intro k hk
  refine ⟨WebView.historyItemAction self.history (self.history.currentItemIndex - 1 - k),
    ?_, rfl, rfl, rfl, ?_⟩
  · rw [List.getElem?_map, List.getElem?_range (by omega)]
    rfl
  · intro e he
    have hlen : (self.history.currentItemIndex - 1 - k).toNat < self.history.items.length :=
      (List.getElem?_eq_some.mp he).1
    obtain ⟨e2, he2, ht⟩ := self.history.itemAt_title (self.history.currentItemIndex - 1 - k)
      (by omega) (by unfold QWebEngineHistory.count; omega)
    rw [he] at he2
    cases he2
    exact ht

/-- Claim C5: `getHistoryForwardMenu` yields no menu when `cur + 1 >= count`;
otherwise it yields a forward menu with exactly `count - cur - 1` entries, the
entry number `k` having the title of the history item at index `cur + 1 + k`
and carrying that index as data. -/
theorem WebView.getHistoryForwardMenu_entries {Zoom : Type} (self : WebView Zoom) :
    (self.history.currentItemIndex + 1 ≥ self.history.count →
      self.getHistoryForwardMenu = none) ∧
    (self.history.currentItemIndex + 1 < self.history.count →
      ∃ menu, self.getHistoryForwardMenu = some menu ∧
        menu.menuClass = MenuClass.WebViewForwardMenu ∧
        (menu.actions.length : Int) =
          self.history.count - self.history.currentItemIndex - 1 ∧
        ∀ k : Nat, (k : Int) < self.history.count - self.history.currentItemIndex - 1 →
          ∃ a, menu.actions[k]? = some a ∧
            a.text = (self.history.itemAt (self.history.currentItemIndex + 1 + k)).title ∧
            a.data = QVariant.int (self.history.currentItemIndex + 1 + k) ∧
            a.triggered = [Slot.gotoTriggeredHistoryItemAction] ∧
            ∀ e, 0 ≤ self.history.currentItemIndex + 1 + k →
              self.history.items[(self.history.currentItemIndex + 1 + k).toNat]? = some e →
              a.text = e.title) := by
  rw [WebView.getHistoryForwardMenu_eq]
  refine ⟨fun hc => by simp [hc], fun hc => ?_⟩
  refine ⟨_, by rw [if_neg (by omega)], rfl, by simp; omega, ?_⟩
  intro k hk
  refine ⟨WebView.historyItemAction self.history (self.history.currentItemIndex + 1 + k),
    ?_, rfl, rfl, rfl, ?_⟩
  · rw [List.getElem?_map, List.getElem?_range (by omega)]
    rfl
  · intro e h0 he
    obtain ⟨e2, he2, ht⟩ := self.history.itemAt_title (self.history.currentItemIndex + 1 + k)
      h0 (by omega)
    rw [he] at he2
    cases he2
    exact ht

/-- The slot on an action carrying the integer `n`: it goes to position `n`
when `0 ≤ n < count` and does nothing otherwise. -/
theorem WebView.gotoTriggeredHistoryItemAction_eq {Zoom : Type} (self : WebView Zoom)
    (a : QAction) :
    self.gotoTriggeredHistoryItemAction (some a) =
      if 0 ≤ a.data.toInt ∧ a.data.toInt < self.history.count then
        { self with history :=
            { items := self.history.items, currentItemIndex := a.data.toInt } }
      else self := by
  unfold WebView.gotoTriggeredHistoryItemAction
  by_cases h : 0 ≤ a.data.toInt ∧ a.data.toInt < self.history.count
  · have h2 : ¬ (a.data.toInt < 0 ∨ a.data.toInt ≥ self.history.count) := by omega
    simp only [h2, h, if_false, and_self, if_true]
    simp [QWebEngineHistory.goToItem, QWebEngineHistory.itemAt, h]
  · have h2 : a.data.toInt < 0 ∨ a.data.toInt ≥ self.history.count := by omega
    simp only [h2, h, if_true, if_false]

/-- The entries of both history menus, when the current index is in its
range: each is `historyItemAction` for a position that exists and is not the
current one. -/
theorem WebView.history_menu_entry {Zoom : Type} (self : WebView Zoom)
    (hv : self.history.Valid) (menu : QMenu)
    (hm : self.getHistoryBackMenu = some menu ∨ self.getHistoryForwardMenu = some menu)
    (a : QAction) (ha : a ∈ menu.actions) :
    ∃ n : Int, a = WebView.historyItemAction self.history n ∧ 0 ≤ n ∧
      n < self.history.count ∧ n ≠ self.history.currentItemIndex := by
  obtain ⟨hv1, hv2⟩ := hv
  rcases hm with hm | hm
  · rw [WebView.getHistoryBackMenu_eq] at hm
    by_cases hc : self.history.currentItemIndex ≤ 0
    · simp [hc] at hm
    · rw [if_neg hc] at hm
      cases hm
      obtain ⟨k, hk, rfl⟩ := List.mem_map.mp ha
      have hk2 := List.mem_range.mp hk
      exact ⟨_, rfl, by omega, by omega, by omega⟩
  · rw [WebView.getHistoryForwardMenu_eq] at hm
    by_cases hc : self.history.currentItemIndex + 1 ≥ self.history.count
    · simp [hc] at hm
    · rw [if_neg hc] at hm
      cases hm
      obtain ⟨k, hk, rfl⟩ := List.mem_map.mp ha
      have hk2 := List.mem_range.mp hk
      exact ⟨_, rfl, by omega, by omega, by omega⟩

/-- Claim C9: `gotoTriggeredHistoryItemAction`, for the integer `n` carried by
the triggered action, makes the item at index `n` the current one when
`0 ≤ n < count` and leaves the widget as it is otherwise (also without a
sending action); and every entry of the back or forward menu built on a
history whose current index is in its range carries an index `n` that is in
range and differs from the current index, shows the title of the item at `n`,
is connected to the slot, and triggering it makes that item the current one. -/
theorem WebView.gotoTriggeredHistoryItemAction_menu_entry {Zoom : Type} (self : WebView Zoom) :
    (∀ a : QAction, 0 ≤ a.data.toInt ∧ a.data.toInt < self.history.count →
      self.gotoTriggeredHistoryItemAction (some a) =
        { self with history :=
            { items := self.history.items, currentItemIndex := a.data.toInt } }) ∧
    (∀ a : QAction, ¬ (0 ≤ a.data.toInt ∧ a.data.toInt < self.history.count) →
      self.gotoTriggeredHistoryItemAction (some a) = self) ∧
    self.gotoTriggeredHistoryItemAction none = self ∧
    (self.history.Valid → ∀ menu : QMenu,
      (self.getHistoryBackMenu = some menu ∨ self.getHistoryForwardMenu = some menu) →
      ∀ a ∈ menu.actions, ∃ (n : Int) (e : HistoryEntry),
        a.data = QVariant.int n ∧ 0 ≤ n ∧ n < self.history.count ∧
        n ≠ self.history.currentItemIndex ∧
        self.history.items[n.toNat]? = some e ∧ a.text = e.title ∧
        a.triggered = [Slot.gotoTriggeredHistoryItemAction] ∧
        (self.gotoTriggeredHistoryItemAction (some a)).history.currentItemIndex = n ∧
        (self.gotoTriggeredHistoryItemAction (some a)).history.items = self.history.items) := by
  refine ⟨fun a h => ?_, fun a h => ?_, rfl, fun hv menu hm a ha => ?_⟩
  · rw [WebView.gotoTriggeredHistoryItemAction_eq, if_pos h]
  · rw [WebView.gotoTriggeredHistoryItemAction_eq, if_neg h]
  · obtain ⟨n, rfl, h0, h1, h2⟩ := WebView.history_menu_entry self hv menu hm a ha
    obtain ⟨e, he, ht⟩ := self.history.itemAt_title n h0 h1
    refine ⟨n, e, rfl, h0, h1, h2, he, ht, rfl, ?_, ?_⟩
    · rw [WebView.gotoTriggeredHistoryItemAction_eq,
        if_pos (show 0 ≤ (WebView.historyItemAction self.history n).data.toInt ∧
          (WebView.historyItemAction self.history n).data.toInt < self.history.count from
            ⟨h0, h1⟩)]
      rfl
    · rw [WebView.gotoTriggeredHistoryItemAction_eq,
        if_pos (show 0 ≤ (WebView.historyItemAction self.history n).data.toInt ∧
          (WebView.historyItemAction self.history n).data.toInt < self.history.count from
            ⟨h0, h1⟩)]

/-- On the history A, B, C, D with C current: the current index is in its
range, the back menu lists B then A, the forward menu lists D, and each
entry satisfies the statement of claim C9. -/
theorem WebView.gotoTriggeredHistoryItemAction_menu_entry_witness :
    exHistoryView.history.Valid ∧
    exHistoryView.getHistoryBackMenu =
      some { menuClass := MenuClass.WebViewBackMenu,
             actions := [WebView.historyItemAction exHistoryView.history 1,
                         WebView.historyItemAction exHistoryView.history 0] } ∧
    exHistoryView.getHistoryForwardMenu =
      some { menuClass := MenuClass.WebViewForwardMenu,
             actions := [WebView.historyItemAction exHistoryView.history 3] } ∧
    ∀ menu : QMenu,
      (exHistoryView.getHistoryBackMenu = some menu ∨
        exHistoryView.getHistoryForwardMenu = some menu) →
      ∀ a ∈ menu.actions, ∃ (n : Int) (e : HistoryEntry),
        a.data = QVariant.int n ∧ 0 ≤ n ∧ n < exHistoryView.history.count ∧
        n ≠ exHistoryView.history.currentItemIndex ∧
        exHistoryView.history.items[n.toNat]? = some e ∧ a.text = e.title ∧
        a.triggered = [Slot.gotoTriggeredHistoryItemAction] ∧
        (exHistoryView.gotoTriggeredHistoryItemAction (some a)).history.currentItemIndex = n ∧
        (exHistoryView.gotoTriggeredHistoryItemAction (some a)).history.items =
          exHistoryView.history.items :=
  ⟨by decide,
    by rw [WebView.getHistoryBackMenu_eq]; rfl,
    by rw [WebView.getHistoryForwardMenu_eq]; rfl,
    (WebView.gotoTriggeredHistoryItemAction_menu_entry exHistoryView).2.2.2 (by decide)⟩

/-! ## Reaction to a URL change -/

/-- Claim C6 as stated fails: the stored content identifier is `old`, the URL
`zim://zzz.zim/` names the archive `zzz` that the library lacks, the slot
returns normally, and the stored content identifier is `zzz` afterwards. -/
theorem WebView.onUrlChanged_unknown_zimId_overwrites :
    getZimIdFromUrl exUnknownUrl = .ok "zzz".toList ∧
    exApp.getLibrary.getArchive "zzz".toList = .error .out_of_range ∧
    (exOldView.onUrlChanged exApp exUnknownUrl).raised = none ∧
    exOldView.m_currentZimId = "old".toList ∧
    (exOldView.onUrlChanged exApp exUnknownUrl).self.m_currentZimId = "zzz".toList ∧
    (exOldView.onUrlChanged exApp exUnknownUrl).self.m_currentZimId ≠ exOldView.m_currentZimId :=
  ⟨rfl, rfl, rfl, rfl, rfl, by decide⟩

/-- Claim C6, amended: when the archive lookup for the URL's content
identifier raises not-found, `onUrlChanged` returns normally, leaves the zoom
factor and the icon (and all but one field of the widget) as they were, and
emits no `iconChanged`; the stored content identifier is the URL's one
afterwards, and `zimIdChanged` is emitted exactly when it differed before. -/
theorem WebView.onUrlChanged_unknown_zimId {Zoom : Type} (self : WebView Zoom)
    (app : KiwixApp Zoom) (url : QUrl) (zimId : QString)
    (hz : getZimIdFromUrl url = .ok zimId)
    (hl : app.getLibrary.getArchive zimId = .error .out_of_range) :
    (self.onUrlChanged app url).raised = none ∧
    (self.onUrlChanged app url).self.zoomFactor = self.zoomFactor ∧
    (self.onUrlChanged app url).self.m_icon = self.m_icon ∧
    (self.onUrlChanged app url).self.m_currentZimId = zimId ∧
    (self.onUrlChanged app url).self = { self with m_currentZimId := zimId } ∧
    (self.onUrlChanged app url).emitted =
      (if self.m_currentZimId = zimId then [] else [Signal.zimIdChanged zimId]) ∧
    ∀ icon, Signal.iconChanged icon ∉ (self.onUrlChanged app url).emitted := by
  unfold WebView.onUrlChanged
  by_cases hc : self.m_currentZimId = zimId
  · subst hc
    simp only [hz, if_true]
    simp
  · simp only [hz, hc, if_false, hl]
    simp

/-- The amended claim C6 on the widget with identifier `old` and the URL
`zim://zzz.zim/`. -/
theorem WebView.onUrlChanged_unknown_zimId_witness :
    getZimIdFromUrl exUnknownUrl = .ok "zzz".toList ∧
    exApp.getLibrary.getArchive "zzz".toList = .error .out_of_range ∧
    (exOldView.onUrlChanged exApp exUnknownUrl).raised = none ∧
    (exOldView.onUrlChanged exApp exUnknownUrl).self.zoomFactor = 120 ∧
    (exOldView.onUrlChanged exApp exUnknownUrl).self.m_icon = exOldView.m_icon ∧
    (exOldView.onUrlChanged exApp exUnknownUrl).self.m_currentZimId = "zzz".toList ∧
    (exOldView.onUrlChanged exApp exUnknownUrl).emitted =
      [Signal.zimIdChanged "zzz".toList] :=
  have h := WebView.onUrlChanged_unknown_zimId exOldView exApp exUnknownUrl "zzz".toList rfl rfl
  ⟨rfl, rfl, h.1, h.2.1, h.2.2.1, h.2.2.2.1, h.2.2.2.2.2.1⟩

/-- Claim C7: when the URL's content identifier is in the library and its
archive has no 48px illustration (`zim::EntryNotFound`), `onUrlChanged`
returns normally, leaves the icon as it was and emits no `iconChanged`. -/
theorem WebView.onUrlChanged_missing_illustration {Zoom : Type} (self : WebView Zoom)
    (app : KiwixApp Zoom) (url : QUrl) (zimId : QString) (archive : Archive)
    (hz : getZimIdFromUrl url = .ok zimId)
    (hl : app.getLibrary.getArchive zimId = .ok archive)
    (hi : archive.getIllustrationItem 48 = .error .EntryNotFound) :
    (self.onUrlChanged app url).raised = none ∧
    (self.onUrlChanged app url).self.m_icon = self.m_icon ∧
    ∀ icon, Signal.iconChanged icon ∉ (self.onUrlChanged app url).emitted := by
  have hf : WebView.onUrlChanged.favicon archive = .error .EntryNotFound := by
    simp only [WebView.onUrlChanged.favicon, hi]
  unfold WebView.onUrlChanged
  by_cases hc : self.m_currentZimId = zimId
  · simp only [hz, hc, if_true]
    simp
  · simp only [hz, hc, if_false, hl, hf]
    simp [WebView.setZoomFactor]

/-- Claim C7 on the widget with identifier `old` and the URL
`zim://abc.search/?pattern=x`, whose archive `abc` has no illustration: the
identifier and the zoom factor change, the icon does not. -/
theorem WebView.onUrlChanged_missing_illustration_witness :
    getZimIdFromUrl exSearchUrl = .ok "abc".toList ∧
    exApp.getLibrary.getArchive "abc".toList = .ok exArchiveNoIcon ∧
    exArchiveNoIcon.getIllustrationItem 48 = .error .EntryNotFound ∧
    (exOldView.onUrlChanged exApp exSearchUrl).self.m_currentZimId = "abc".toList ∧
    (exOldView.onUrlChanged exApp exSearchUrl).self.zoomFactor = 150 ∧
    (exOldView.onUrlChanged exApp exSearchUrl).raised = none ∧
    (exOldView.onUrlChanged exApp exSearchUrl).self.m_icon = exOldView.m_icon ∧
    ∀ icon, Signal.iconChanged icon ∉ (exOldView.onUrlChanged exApp exSearchUrl).emitted :=
  ⟨rfl, rfl, rfl, rfl, rfl,
    WebView.onUrlChanged_missing_illustration exOldView exApp exSearchUrl "abc".toList
      exArchiveNoIcon rfl rfl rfl⟩

/-! ## Event filter -/

/-- The call `startsWith` holds exactly of the strings that begin with the
given one. -/
theorem QString.startsWith_iff (s p : QString) :
    QString.startsWith s p = true ↔ ∃ rest, s = p ++ rest := by
  induction p generalizing s with
  | nil => simp [QString.startsWith]
  | cons c p ih =>
    cases s with
    | nil => simp [QString.startsWith]
    | cons d s =>
      simp only [QString.startsWith, Bool.and_eq_true, decide_eq_true_eq, ih, List.cons_append,
        List.cons.injEq]
      constructor
      · rintro ⟨hd, rest, hr⟩
        exact ⟨rest, hd, hr⟩
      · rintro ⟨rest, hd, hr⟩
        exact ⟨hd, rest, hr⟩

/-- Claim C8: `eventFilter` opens a link in the external browser if and only
if the event is a mouse-button release, the hovered link does not start with
`zim://`, and the modifiers are exactly Control or the button is the middle
one; the link it opens is the hovered link and it then returns true; a
hovered link that starts with `zim://` is never opened. -/
theorem WebView.eventFilter_openUrl {Zoom : Type} (self : WebView Zoom) (e : QEvent) :
    ((∃ link, Effect.openUrl link ∈ (self.eventFilter e).2) ↔
      (e.type = EventType.MouseButtonRelease ∧
        QString.startsWith self.m_linkHovered "zim://".toList = false ∧
        (e.modifiers = ControlModifier ∨ e.button = MouseButton.MiddleButton))) ∧
    (∀ link, Effect.openUrl link ∈ (self.eventFilter e).2 →
      link = self.m_linkHovered ∧ (self.eventFilter e).2 = [Effect.openUrl self.m_linkHovered] ∧
        (self.eventFilter e).1 = true) ∧
    (∀ rest, self.m_linkHovered = "zim://".toList ++ rest →
      ∀ link, Effect.openUrl link ∉ (self.eventFilter e).2) := by
  have key : ∀ link, Effect.openUrl link ∈ (self.eventFilter e).2 →
      link = self.m_linkHovered ∧ (self.eventFilter e).2 = [Effect.openUrl self.m_linkHovered] ∧
        (self.eventFilter e).1 = true ∧ e.type = EventType.MouseButtonRelease ∧
        QString.startsWith self.m_linkHovered "zim://".toList = false ∧
        (e.modifiers = ControlModifier ∨ e.button = MouseButton.MiddleButton) := by
    intro link hl
    unfold WebView.eventFilter at hl ⊢
    split_ifs at hl ⊢ with h1 h2 h3 h4 h5
    · simp at hl
    · simp only [List.mem_singleton, Effect.openUrl.injEq] at hl
      exact ⟨hl, rfl, rfl, h2, by simpa using h3.1, h3.2⟩
    · simp at hl
    · simp at hl
    · simp at hl
    · simp at hl
  refine ⟨⟨?_, ?_⟩, fun link hl => ⟨(key link hl).1, (key link hl).2.1, (key link hl).2.2.1⟩, ?_⟩
  · rintro ⟨link, hl⟩
    exact (key link hl).2.2.2
  · rintro ⟨ht, hs, hb⟩
    refine ⟨self.m_linkHovered, ?_⟩
    unfold WebView.eventFilter
    have h1 : ¬ (e.type = EventType.Wheel ∧ e.modifiers = ControlModifier) := by
      rw [ht]
      simp
    rw [if_neg h1, if_pos ht, if_pos ⟨by rw [hs]; decide, hb⟩]
    simp
  · intro rest hr link hl
    have hs := (key link hl).2.2.2.2.1
    have ht := (QString.startsWith_iff self.m_linkHovered "zim://".toList).mpr ⟨rest, hr⟩
    rw [ht] at hs
    cases hs

end Kiwix
